import Mathlib

/-!
Shallow embedding of the concurrent web crawler in `07-crawl/main.go`
(URL frontier, rate-limited fetcher, worker pool), together with proofs
of the frozen claims about it.

Modelling conventions:
* Go maps become association lists / membership lists; a `map[string]bool`
  lookup with its zero-value default becomes `List.contains`.
* The buffered channel `urls chan string` (capacity 1000) becomes a FIFO
  `List String` with an explicit capacity bound; the non-blocking
  `select`/`default` send becomes a conditional append.
* Machine time for the rate limiter is an abstract `Nat` clock; the
  mutex-serialized critical section of `Fetch` is modelled as a function
  from (state, lock-acquisition instant) to (state, lock-release instant).
* The HTTP transport is an oracle (`HTTPOutcome`): the fetcher's own logic
  (parse check, status classification, body handling) is transcribed.
-/

namespace CrawlSpec

/-- URLStatus (main.go lines 19-26): status of a URL during crawling. -/
inductive URLStatus where
  | pending
  | fetched
  | error
  | redirect
deriving DecidableEq, Repr

/-- CrawlResult (main.go lines 29-37). Go's `Error error` field is modelled
as `Option String` (`none` = nil error). -/
structure CrawlResult where
  url : String
  status : URLStatus
  content : String := ""
  links : List String := []
  errMsg : Option String := none
  statusCode : Nat := 0
  redirectURL : String := ""
deriving DecidableEq, Repr

/-- Model of Go's `net/url.Parse` composed with `URL.String()` (the
normalization round-trip used by `AddURL`, main.go lines 64-68). The Go
standard library is outside this repository, so its contract is modelled:
`net/url.Parse` fails on URLs containing ASCII control characters (its
dominant failure mode) and otherwise succeeds, accepting the empty string
and relative references; on the already-canonical URL strings used in this
development the `String()` round-trip is the identity. -/
def urlParse (rawURL : String) : Option String :=
  if rawURL.toList.any (fun c => c.toNat < 0x20 || c.toNat == 0x7f) then none
  else some rawURL

/-- Capacity of the frontier's buffered channel: `make(chan string, 1000)`
(main.go line 51). -/
def chanCapacity : Nat := 1000

/-- URLFrontier (main.go lines 40-46). The channel is a FIFO list (head is
dequeued first), `visited` is the set of keys mapped to `true`, and `depth`
is the depth map as an association list whose head is the latest write. -/
structure URLFrontier where
  urls : List String
  visited : List String
  maxDepth : Int
  depth : List (String × Int)
deriving DecidableEq, Repr

/-- NewURLFrontier (main.go lines 49-56). -/
def NewURLFrontier (maxDepth : Int) : URLFrontier :=
  { urls := [], visited := [], maxDepth := maxDepth, depth := [] }

/-- Lookup in the depth map; a missing key yields Go's zero value 0
(`uf.depth[url]`, main.go line 90). -/
def lookupDepth (m : List (String × Int)) (u : String) : Int :=
  match m.find? (fun p => p.1 = u) with
  | some p => p.2
  | none => 0

/-- AddURL (main.go lines 59-83): parse/normalize the URL (no-op on parse
failure), reject if already visited or `currentDepth >= maxDepth`,
otherwise mark visited, record the depth, and attempt a non-blocking send
into the bounded channel (the URL is dropped when the channel is full).
The Go method returns nothing; the model returns the updated frontier, so
the call always returns — the `select`/`default` never blocks. -/
def URLFrontier.AddURL (uf : URLFrontier) (rawURL : String) (currentDepth : Int) :
    URLFrontier :=
  match urlParse rawURL with
  | none => uf
  | some normalizedURL =>
    if normalizedURL ∈ uf.visited ∨ currentDepth ≥ uf.maxDepth then uf
    else
      let uf' := { uf with
        visited := normalizedURL :: uf.visited,
        depth := (normalizedURL, currentDepth) :: uf.depth }
      if uf'.urls.length < chanCapacity then
        { uf' with urls := uf'.urls ++ [normalizedURL] }
      else uf'

/-- GetURL (main.go lines 86-96): non-blocking receive from the channel;
returns `("", 0, false)` and leaves the frontier unchanged when the queue
is empty, else dequeues the head and looks up its depth. -/
def URLFrontier.GetURL (uf : URLFrontier) : (String × Int × Bool) × URLFrontier :=
  match uf.urls with
  | [] => (("", 0, false), uf)
  | u :: rest => ((u, lookupDepth uf.depth u, true), { uf with urls := rest })

/-- An operation another goroutine may perform on the shared frontier. -/
inductive FrontierOp where
  | add (rawURL : String) (depth : Int)
  | get
deriving DecidableEq, Repr

/-- Apply one frontier operation. -/
def stepOp (uf : URLFrontier) : FrontierOp → URLFrontier
  | .add r d => uf.AddURL r d
  | .get => (uf.GetURL).2

/-- Apply a sequence of frontier operations in order. -/
def runOps (uf : URLFrontier) : List FrontierOp → URLFrontier
  | [] => uf
  | op :: ops => runOps (stepOp uf op) ops

/-! ### Fetcher -/

/-- Outcome of the HTTP layer for one request, abstracting
`http.NewRequest` / `client.Do` / `io.ReadAll` (external collaborators of
`Fetch`, main.go lines 152-185). `bodyRead` is the result of reading the
response body, consulted only when the fetcher actually reads it. -/
inductive HTTPOutcome where
  | requestError (msg : String)
  | transportError (msg : String)
  | response (statusCode : Nat) (location : String) (bodyRead : Except String String)
deriving Repr

/-- Fetch (main.go lines 125-190), with the HTTP transport abstracted as an
`HTTPOutcome` oracle. The rate-limiting block (lines 142-149) affects only
timing, not the returned result, and is modelled separately by
`rlCritical`/`rlRun`. The transcribed control flow: start from a `Pending`
result; parse failure, request-creation failure and transport failure each
return `Error`; otherwise record the status code; codes in [300,400)
return `Redirect` with the `Location` header without reading the body; any
other code reads the body — a read failure returns `Error`, success
returns `Fetched` with the body as content. -/
def Fetch (rawURL : String) (outcome : HTTPOutcome) : CrawlResult :=
  let result : CrawlResult := { url := rawURL, status := .pending }
  match urlParse rawURL with
  | none => { result with status := .error, errMsg := some "url parse error" }
  | some _ =>
    match outcome with
    | .requestError e => { result with status := .error, errMsg := some e }
    | .transportError e => { result with status := .error, errMsg := some e }
    | .response sc loc bodyRead =>
      let result := { result with statusCode := sc }
      if 300 ≤ sc ∧ sc < 400 then
        { result with status := .redirect, redirectURL := loc }
      else
        match bodyRead with
        | .error e => { result with status := .error, errMsg := some e }
        | .ok body => { result with content := body, status := .fetched }

/-! ### Rate limiter timing model

The pacing block of `Fetch` (main.go lines 142-149) runs between
`f.mu.Lock()` and `f.mu.Unlock()`; crucially the `time.Sleep` happens
while the mutex is held.  Time is an abstract `Nat` clock. -/

/-- Rate limiter state of the Fetcher: the per-hostname last-request
timestamp map `rateLimiter map[string]time.Time` (head of the list is the
latest write) and the configured `delay`. -/
structure RateLimiter where
  rateLimiter : List (String × Nat)
  delay : Nat
deriving DecidableEq, Repr

/-- Timestamp lookup in the rate limiter map (`f.rateLimiter[hostname]`
with Go's comma-ok idiom). -/
def RateLimiter.lastRequest (f : RateLimiter) (hostname : String) : Option Nat :=
  match f.rateLimiter.find? (fun p => p.1 = hostname) with
  | some p => some p.2
  | none => none

/-- The instant at which one execution of the mutex-protected pacing
section (main.go lines 142-149) releases the lock, given that it acquired
the lock at `enter`: if the hostname has a recorded last-request time
`last` and `time.Since(last) = enter - last` is less than `delay`, the
goroutine sleeps for the remainder `delay - (enter - last)` — still
holding the lock — and wakes at `enter + (delay - (enter - last))`;
otherwise it proceeds immediately. -/
def rlExit (f : RateLimiter) (hostname : String) (enter : Nat) : Nat :=
  match f.lastRequest hostname with
  | some last =>
    if enter - last < f.delay then enter + (f.delay - (enter - last)) else enter
  | none => enter

/-- One execution of the mutex-protected pacing section (main.go lines
142-149) by the goroutine holding the lock. `enter` is the instant
`f.mu.Lock()` returns. After the conditional sleep (`rlExit`), the
goroutine records `time.Now()` — the post-sleep instant — for the hostname
and releases the lock. Returns the updated state and the release instant,
which is also the earliest instant the goroutine's HTTP request can be
issued. -/
def rlCritical (f : RateLimiter) (hostname : String) (enter : Nat) :
    RateLimiter × Nat :=
  ({ f with rateLimiter := (hostname, rlExit f hostname enter) :: f.rateLimiter },
   rlExit f hostname enter)

/-- Serialized execution of the pacing sections of a sequence of `Fetch`
calls, in mutex-acquisition order. Each list element is (hostname, instant
the goroutine reaches `f.mu.Lock()`); `free` is the instant the lock is
available. A goroutine enters its critical section at the later of its
arrival and the lock becoming free — so a sleep performed inside the lock
by an earlier call postpones every later call, whatever its hostname.
Returns, per call, (hostname, lock-release instant = earliest instant its
HTTP request is issued). -/
def rlRun (f : RateLimiter) (free : Nat) :
    List (String × Nat) → List (String × Nat) × RateLimiter
  | [] => ([], f)
  | (hostname, arrival) :: rest =>
    let enter := max arrival free
    let step := rlCritical f hostname enter
    let tail := rlRun step.1 step.2 rest
    ((hostname, step.2) :: tail.1, tail.2)

/-- All timestamps recorded in the rate limiter map are at most `t`
(monotonicity of the clock: nothing was recorded after instant `t`). -/
def rlBounded (f : RateLimiter) (t : Nat) : Prop :=
  ∀ p ∈ f.rateLimiter, p.2 ≤ t

/-! ### Worker and engine -/

/-- The body of one successful worker iteration (main.go lines 374-386):
fetch the URL, and when the result is `Fetched` extract links, attach them
to the result, and add each to the frontier at `depth+1`. `fetch` is the
Fetcher and `extract` the link extractor (`c.parser.Parse`), both passed
as oracles. Returns the result that is sent to the results channel and the
updated frontier. -/
def workerProcess (fetch : String → CrawlResult)
    (extract : String → String → List String)
    (uf : URLFrontier) (url : String) (depth : Int) : CrawlResult × URLFrontier :=
  let result := fetch url
  if result.status = .fetched then
    let links := extract result.content url
    let result := { result with links := links }
    let uf := links.foldl (fun s l => s.AddURL l (depth + 1)) uf
    (result, uf)
  else (result, uf)

/-- Action decided by one pass of the worker's polling logic. -/
inductive PollAction where
  | proceedFetch (url : String) (depth : Int)
  | retryContinue
  | exitLoop
deriving DecidableEq, Repr

/-- The worker's polling logic (main.go lines 363-372). `uf1` is the
frontier at the first `GetURL`; `uf2` is the frontier at the second-chance
`GetURL` after the 100ms sleep (other goroutines may have added URLs in
between; with no interference `uf2` is the unchanged `uf1`).
Transcription: if the first poll succeeds the worker proceeds to fetch the
dequeued URL. Otherwise it sleeps and polls again, binding the second
poll's url and depth to `_` — the code consults only `stillOk`: on `true`
it executes `continue` (the dequeued URL is discarded), on `false` it
breaks out of the loop. -/
def workerPoll (uf1 uf2 : URLFrontier) : PollAction × URLFrontier :=
  let first := uf1.GetURL
  if first.1.2.2 then (.proceedFetch first.1.1 first.1.2.1, first.2)
  else
    let second := uf2.GetURL
    if second.1.2.2 then (.retryContinue, second.2)
    else (.exitLoop, second.2)

/-- Sequential (single-worker, no interference) run of the worker loop
(main.go lines 360-395): with one worker nothing refills the queue between
the two polls, so the loop runs `workerProcess` until the queue is empty
and then exits. `fuel` bounds the number of iterations. Results are
accumulated in order of production (the non-blocking send to the bounded
results channel is modelled as always succeeding here; drops would only
shorten the list). -/
def workerRun (fetch : String → CrawlResult)
    (extract : String → String → List String) :
    Nat → URLFrontier → List CrawlResult → List CrawlResult
  | 0, _, acc => acc.reverse
  | Nat.succ fuel, uf, acc =>
    let polled := uf.GetURL
    if polled.1.2.2 then
      let processed := workerProcess fetch extract polled.2 polled.1.1 polled.1.2.1
      workerRun fetch extract fuel processed.2 (processed.1 :: acc)
    else acc.reverse

/-- Crawl (main.go lines 328-357): build the parser for the seed URL
(`NewParser` calls `url.Parse`; failure is returned to the caller), seed
the frontier at depth 0, run the workers, and return nil. The worker pool
communicates through the frontier and the results channel only — nothing a
worker produces reaches the return value, which the model makes explicit
by discarding `workerRun`'s output. -/
def Crawl (fetch : String → CrawlResult)
    (extract : String → String → List String)
    (maxDepth : Int) (fuel : Nat) (startURL : String) : Except String Unit :=
  match urlParse startURL with
  | none => .error "invalid seed URL"
  | some _ =>
    let uf := (NewURLFrontier maxDepth).AddURL startURL 0
    let _results := workerRun fetch extract fuel uf []
    .ok ()

/-! ### Shared lemmas about the frontier -/

/-- Unfolding lemma: `AddURL` on an unparseable URL is a no-op. -/
theorem addURL_parse_fail (uf : URLFrontier) (r : String) (d : Int)
    (h : urlParse r = none) : uf.AddURL r d = uf := by
  unfold URLFrontier.AddURL
  rw [h]

/-- Unfolding lemma: `AddURL` is a no-op when the normalized URL is
already visited or the depth reaches the ceiling. -/
theorem addURL_rejected (uf : URLFrontier) (r n : String) (d : Int)
    (hn : urlParse r = some n) (h : n ∈ uf.visited ∨ d ≥ uf.maxDepth) :
    uf.AddURL r d = uf := by
  unfold URLFrontier.AddURL
  rw [hn]
  exact if_pos h

/-- Unfolding lemma: a fresh, depth-admissible `AddURL` with queue space
marks the URL visited, records its depth and appends it to the queue. -/
theorem addURL_fresh_space (uf : URLFrontier) (r n : String) (d : Int)
    (hn : urlParse r = some n) (hv : n ∉ uf.visited) (hd : d < uf.maxDepth)
    (hspace : uf.urls.length < chanCapacity) :
    uf.AddURL r d = { uf with visited := n :: uf.visited,
                              depth := (n, d) :: uf.depth,
                              urls := uf.urls ++ [n] } := by
  unfold URLFrontier.AddURL
  rw [hn]
  dsimp only
  rw [if_neg (by push_neg; exact ⟨hv, by omega⟩)]
  exact if_pos hspace

/-- Unfolding lemma: a fresh, depth-admissible `AddURL` against a full
queue marks the URL visited and records its depth but drops the enqueue. -/
theorem addURL_fresh_full (uf : URLFrontier) (r n : String) (d : Int)
    (hn : urlParse r = some n) (hv : n ∉ uf.visited) (hd : d < uf.maxDepth)
    (hfull : ¬ uf.urls.length < chanCapacity) :
    uf.AddURL r d = { uf with visited := n :: uf.visited,
                              depth := (n, d) :: uf.depth } := by
  unfold URLFrontier.AddURL
  rw [hn]
  dsimp only
  rw [if_neg (by push_neg; exact ⟨hv, by omega⟩)]
  exact if_neg hfull

/-- A later `AddURL` whose argument normalizes to an already-visited URL
is a no-op: the frontier is returned unchanged. -/
theorem addURL_noop_of_visited (uf : URLFrontier) (rawURL n : String) (d : Int)
    (hn : urlParse rawURL = some n) (hv : n ∈ uf.visited) :
    uf.AddURL rawURL d = uf :=
  addURL_rejected uf rawURL n d hn (Or.inl hv)

/-- Membership in the visited set survives every frontier operation. -/
theorem visited_mono_step (uf : URLFrontier) (op : FrontierOp) (n : String)
    (h : n ∈ uf.visited) : n ∈ (stepOp uf op).visited := by
  cases op with
  | get =>
    simp only [stepOp, URLFrontier.GetURL]
    cases uf.urls <;> exact h
  | add r d =>
    simp only [stepOp]
    cases hp : urlParse r with
    | none => rw [addURL_parse_fail uf r d hp]; exact h
    | some m =>
      by_cases hc : m ∈ uf.visited ∨ d ≥ uf.maxDepth
      · rw [addURL_rejected uf r m d hp hc]; exact h
      · push_neg at hc
        by_cases hlen : uf.urls.length < chanCapacity
        · rw [addURL_fresh_space uf r m d hp hc.1 (by omega) hlen]
          exact List.mem_cons_of_mem m h
        · rw [addURL_fresh_full uf r m d hp hc.1 (by omega) hlen]
          exact List.mem_cons_of_mem m h

/-- The recorded depth of a visited URL survives every frontier operation. -/
theorem depth_stable_step (uf : URLFrontier) (op : FrontierOp) (n : String)
    (h : n ∈ uf.visited) :
    lookupDepth (stepOp uf op).depth n = lookupDepth uf.depth n := by
  cases op with
  | get =>
    simp only [stepOp, URLFrontier.GetURL]
    cases uf.urls <;> rfl
  | add r d =>
    simp only [stepOp]
    cases hp : urlParse r with
    | none => rw [addURL_parse_fail uf r d hp]
    | some m =>
      by_cases hc : m ∈ uf.visited ∨ d ≥ uf.maxDepth
      · rw [addURL_rejected uf r m d hp hc]
      · push_neg at hc
        have hne : ¬ (m = n) := fun he => hc.1 (he ▸ h)
        by_cases hlen : uf.urls.length < chanCapacity
        · rw [addURL_fresh_space uf r m d hp hc.1 (by omega) hlen]
          simp [lookupDepth, List.find?, hne]
        · rw [addURL_fresh_full uf r m d hp hc.1 (by omega) hlen]
          simp [lookupDepth, List.find?, hne]

/-- The number of pending copies of a visited URL never increases under
frontier operations. -/
theorem urls_count_step (uf : URLFrontier) (op : FrontierOp) (n : String)
    (h : n ∈ uf.visited) :
    ((stepOp uf op).urls.count n) ≤ uf.urls.count n := by
  cases op with
  | get =>
    simp only [stepOp]
    cases hu : uf.urls with
    | nil => simp [URLFrontier.GetURL, hu]
    | cons u rest =>
      simp only [URLFrontier.GetURL, hu, List.count_cons]
      exact Nat.le_add_right _ _
  | add r d =>
    simp only [stepOp]
    cases hp : urlParse r with
    | none => rw [addURL_parse_fail uf r d hp]
    | some m =>
      by_cases hc : m ∈ uf.visited ∨ d ≥ uf.maxDepth
      · rw [addURL_rejected uf r m d hp hc]
      · push_neg at hc
        have hne : ¬ (n = m) := fun he => hc.1 (he ▸ h)
        by_cases hlen : uf.urls.length < chanCapacity
        · rw [addURL_fresh_space uf r m d hp hc.1 (by omega) hlen]
          simp [List.count_append, List.count_cons, hne]
        · rw [addURL_fresh_full uf r m d hp hc.1 (by omega) hlen]

/-- Invariant carried through any sequence of frontier operations: once a
URL is visited, it stays visited, its recorded depth is stable, and its
pending count never grows. -/
theorem frontier_invariant_runOps (n : String) :
    ∀ (ops : List FrontierOp) (uf : URLFrontier),
      n ∈ uf.visited →
      n ∈ (runOps uf ops).visited ∧
      lookupDepth (runOps uf ops).depth n = lookupDepth uf.depth n ∧
      (runOps uf ops).urls.count n ≤ uf.urls.count n := by
  intro ops
  induction ops with
  | nil => intro uf h; exact ⟨h, rfl, le_refl _⟩
  | cons op ops ih =>
    intro uf h
    have hstep := visited_mono_step uf op n h
    obtain ⟨h1, h2, h3⟩ := ih (stepOp uf op) hstep
    simp only [runOps]
    refine ⟨h1, ?_, ?_⟩
    · rw [h2, depth_stable_step uf op n h]
    · exact le_trans h3 (urls_count_step uf op n h)

/-! ### Claim theorems -/

/-- C3: for every call `AddURL(u, d)` with `d >= maxDepth` (`maxDepth`
fixed at construction), the call is a no-op — the frontier is returned
unchanged, so the URL is not marked visited, not recorded in the depth
map, and never becomes dequeueable through this call; the comparison is
strict, so `d = maxDepth` already rejects (the witness instantiates
exactly that boundary). -/
theorem c3_depth_ceiling_noop (uf : URLFrontier) (rawURL : String) (currentDepth : Int)
    (h : currentDepth ≥ uf.maxDepth) : uf.AddURL rawURL currentDepth = uf := by
  cases hp : urlParse rawURL with
  | none => exact addURL_parse_fail uf rawURL currentDepth hp
  | some n => exact addURL_rejected uf rawURL n currentDepth hp (Or.inr h)

/-- Witness for C3 at the strict boundary `d = maxDepth = 2`. -/
theorem c3_depth_ceiling_noop_witness :
    (2 : Int) ≥ (NewURLFrontier 2).maxDepth ∧
    (NewURLFrontier 2).AddURL "http://a.com/x" 2 = NewURLFrontier 2 :=
  ⟨by decide, c3_depth_ceiling_noop (NewURLFrontier 2) "http://a.com/x" 2 (by decide)⟩

/-- C6: `AddURL` never blocks its caller. In the model the non-blocking
`select`/`default` send becomes a conditional append, so `AddURL` is a
total function — it returns an updated frontier for every state and its
signature carries no error value (matching the Go method returning
nothing). Against a queue already at capacity the enqueue is dropped
silently: the pending queue is returned exactly as it was. -/
theorem c6_addurl_nonblocking (uf : URLFrontier) (rawURL : String) (currentDepth : Int)
    (hfull : chanCapacity ≤ uf.urls.length) :
    (uf.AddURL rawURL currentDepth).urls = uf.urls := by
  cases hp : urlParse rawURL with
  | none => rw [addURL_parse_fail uf rawURL currentDepth hp]
  | some n =>
    by_cases hc : n ∈ uf.visited ∨ currentDepth ≥ uf.maxDepth
    · rw [addURL_rejected uf rawURL n currentDepth hp hc]
    · push_neg at hc
      rw [addURL_fresh_full uf rawURL n currentDepth hp hc.1 (by omega) (by omega)]

/-- A frontier whose pending queue is filled to the channel capacity. -/
def fullQueueFrontier : URLFrontier :=
  { urls := List.replicate chanCapacity "http://full.example/x",
    visited := [], maxDepth := 5, depth := [] }

/-- Witness for C6: a fresh URL offered to a queue at capacity is dropped. -/
theorem c6_addurl_nonblocking_witness :
    chanCapacity ≤ fullQueueFrontier.urls.length ∧
    (fullQueueFrontier.AddURL "http://a.com/x" 0).urls = fullQueueFrontier.urls :=
  ⟨by simp [fullQueueFrontier],
   c6_addurl_nonblocking fullQueueFrontier "http://a.com/x" 0 (by simp [fullQueueFrontier])⟩

/-- C10: inputs that are not well-formed absolute http(s) URLs — the empty
string, a bare relative path — are accepted by the modelled
`net/url.Parse`, so `AddURL` does not take its parse-failure no-op branch
on them: `AddURL("", 0)` marks the empty string visited and enqueues it as
a pending URL instead of discarding it as malformed. (Go's `url.Parse`
returns a nil error for `""` and for relative references; the modelled
failure is reserved for control characters, shown in the last conjunct.) -/
theorem c10_empty_string_url_accepted :
    urlParse "" = some "" ∧
    urlParse "foo/bar" = some "foo/bar" ∧
    ((NewURLFrontier 2).AddURL "" 0).visited = [""] ∧
    ((NewURLFrontier 2).AddURL "" 0).urls = [""] ∧
    urlParse "\x00" = none := by decide

/-- C5: `Fetch` classifies a response with status code in [300,400) as
`Redirect`, with `redirectURL` equal to the `Location` header and empty
content; the body is not read, which the model states as insensitivity of
the result to the body-read outcome. Any other status code (with the body
read succeeding, which "content equal to the full response body"
presupposes) yields `Fetched` with the full body as content, the status
code recorded, and no links set by the fetcher. -/
theorem c5_status_classification (rawURL loc : String) (sc : Nat)
    (bodyRead : Except String String) (body : String)
    (hp : (urlParse rawURL).isSome = true) :
    (300 ≤ sc ∧ sc < 400 →
      (Fetch rawURL (.response sc loc bodyRead)).status = .redirect ∧
      (Fetch rawURL (.response sc loc bodyRead)).redirectURL = loc ∧
      (Fetch rawURL (.response sc loc bodyRead)).content = "" ∧
      ∀ otherRead : Except String String,
        Fetch rawURL (.response sc loc otherRead) =
          Fetch rawURL (.response sc loc bodyRead)) ∧
    (¬ (300 ≤ sc ∧ sc < 400) → bodyRead = .ok body →
      (Fetch rawURL (.response sc loc bodyRead)).status = .fetched ∧
      (Fetch rawURL (.response sc loc bodyRead)).content = body ∧
      (Fetch rawURL (.response sc loc bodyRead)).statusCode = sc ∧
      (Fetch rawURL (.response sc loc bodyRead)).links = []) := by
  obtain ⟨n, hn⟩ := Option.isSome_iff_exists.mp hp
  constructor
  · intro hr
    refine ⟨?_, ?_, ?_, ?_⟩ <;>
      simp [Fetch, hn, if_pos hr]
  · intro hr hb
    subst hb
    refine ⟨?_, ?_, ?_, ?_⟩ <;>
      simp [Fetch, hn, if_neg hr]

/-- Witness for C5: a 301 response is a redirect with the Location header
captured; a 200 response is fetched with the body as content. -/
theorem c5_status_classification_witness :
    (Fetch "http://a.com/x" (.response 301 "http://b.com/" (.ok "ignored"))).status
      = .redirect ∧
    (Fetch "http://a.com/x" (.response 301 "http://b.com/" (.ok "ignored"))).redirectURL
      = "http://b.com/" ∧
    (Fetch "http://a.com/x" (.response 200 "" (.ok "hello"))).status = .fetched ∧
    (Fetch "http://a.com/x" (.response 200 "" (.ok "hello"))).content = "hello" := by
  have h301 := c5_status_classification "http://a.com/x" "http://b.com/" 301
    (Except.ok "ignored") "ignored" (by decide)
  have h200 := c5_status_classification "http://a.com/x" "" 200
    (Except.ok "hello") "hello" (by decide)
  obtain ⟨hr1, hr2, -, -⟩ := h301.1 (by omega)
  obtain ⟨hf1, hf2, -, -⟩ := h200.2 (by omega) rfl
  exact ⟨hr1, hr2, hf1, hf2⟩

/-- The spec's per-result invariant: a terminal (non-Pending) status, a
redirect target only on a Redirect result, links only on a Fetched
result. -/
def ResultInvariant (r : CrawlResult) : Prop :=
  r.status ≠ .pending ∧
  (r.status ≠ .redirect → r.redirectURL = "") ∧
  (r.status ≠ .fetched → r.links = [])

/-- Every result produced by `Fetch` satisfies the result invariant. -/
theorem fetch_result_invariant (rawURL : String) (outcome : HTTPOutcome) :
    ResultInvariant (Fetch rawURL outcome) ∧ (Fetch rawURL outcome).links = [] := by
  unfold Fetch ResultInvariant
  cases urlParse rawURL with
  | none => simp
  | some n =>
    cases outcome with
    | requestError e => simp
    | transportError e => simp
    | response sc loc bodyRead =>
      by_cases hr : 300 ≤ sc ∧ sc < 400
      · simp [if_pos hr]
      · cases bodyRead with
        | error e => simp [if_neg hr]
        | ok body => simp [if_neg hr]

/-- C8: every `CrawlResult` returned by `Fetch` carries a terminal status
(`Fetched`, `Error` or `Redirect` — never `Pending`), its `redirectURL` is
non-empty only when the status is `Redirect`, and `Fetch` itself never
sets links; after the engine's worker step (`workerProcess`, the only
place links are attached) the result still has a terminal status, a
redirect target only on `Redirect`, and a non-empty `links` field only
when the status is `Fetched`. -/
theorem c8_result_invariant (rawURL : String) (outcome : HTTPOutcome)
    (extract : String → String → List String) (uf : URLFrontier) (depth : Int) :
    (Fetch rawURL outcome).status ≠ .pending ∧
    ((Fetch rawURL outcome).status ≠ .redirect → (Fetch rawURL outcome).redirectURL = "") ∧
    (Fetch rawURL outcome).links = [] ∧
    ResultInvariant
      (workerProcess (fun u => Fetch u outcome) extract uf rawURL depth).1 ∧
    ((workerProcess (fun u => Fetch u outcome) extract uf rawURL depth).1.links ≠ [] →
      (workerProcess (fun u => Fetch u outcome) extract uf rawURL depth).1.status
        = .fetched) := by
  obtain ⟨⟨h1, h2, h3⟩, h4⟩ := fetch_result_invariant rawURL outcome
  have hres : (workerProcess (fun u => Fetch u outcome) extract uf rawURL depth).1 =
      if (Fetch rawURL outcome).status = .fetched then
        { Fetch rawURL outcome with
            links := extract (Fetch rawURL outcome).content rawURL }
      else Fetch rawURL outcome := by
    unfold workerProcess
    by_cases hf : (Fetch rawURL outcome).status = .fetched <;> simp [hf]
  refine ⟨h1, h2, h4, ?_, ?_⟩
  · rw [hres]
    by_cases hf : (Fetch rawURL outcome).status = .fetched
    · have hnr : (Fetch rawURL outcome).status ≠ .redirect := by rw [hf]; decide
      rw [if_pos hf]
      exact ⟨by simp [hf], fun _ => by simp [h2 hnr], fun hcon => by simp [hf] at hcon⟩
    · rw [if_neg hf]
      exact ⟨h1, h2, h3⟩
  · rw [hres]
    by_cases hf : (Fetch rawURL outcome).status = .fetched
    · rw [if_pos hf]
      intro _
      simp [hf]
    · rw [if_neg hf]
      intro hne
      exact absurd (h3 hf) hne

/-- Witness for C8 at a concrete 200 response whose page contains links. -/
theorem c8_result_invariant_witness :
    ResultInvariant
      (workerProcess
        (fun u => Fetch u (.response 200 "" (.ok "<a href=x>")))
        (fun _ _ => ["http://a.com/y"]) (NewURLFrontier 2) "http://a.com/x" 0).1 :=
  (c8_result_invariant "http://a.com/x" (.response 200 "" (.ok "<a href=x>"))
    (fun _ _ => ["http://a.com/y"]) (NewURLFrontier 2) 0).2.2.2.1

/-- C1 (evaluation at the failing scenario): the worker's second-chance
retry poll consumes a successfully dequeued URL without fetching it.
Scenario: the frontier is empty at the worker's first `GetURL`; while the
worker sleeps, another goroutine adds `http://a.com/x`, so the frontier
holds it (already marked visited) at the second `GetURL`. The second poll
dequeues it (`ok=true` with the URL, first conjunct), but the worker binds
the URL to `_` and merely continues (`retryContinue`): the post-state
queue is empty, the URL stays visited — it can never be re-enqueued — and
no `proceedFetch` of it ever happens (second conjunct). This contradicts
the claim that every successfully dequeued URL is fetched. -/
theorem c1_retry_poll_discards_url :
    ((NewURLFrontier 2).AddURL "http://a.com/x" 0).GetURL =
      (("http://a.com/x", 0, true),
       { urls := [], visited := ["http://a.com/x"], maxDepth := 2,
         depth := [("http://a.com/x", 0)] }) ∧
    workerPoll (NewURLFrontier 2) ((NewURLFrontier 2).AddURL "http://a.com/x" 0) =
      (PollAction.retryContinue,
       { urls := [], visited := ["http://a.com/x"], maxDepth := 2,
         depth := [("http://a.com/x", 0)] }) := by decide

/-- C7: `Crawl(startURL)` returns a non-nil error exactly when the initial
setup fails, i.e. when the seed URL does not parse while constructing the
parser; the fetch oracle and link extractor are universally quantified, so
per-URL fetch failures — including a run in which every fetch fails —
never reach the return value. -/
theorem c7_crawl_error_only_setup (fetch : String → CrawlResult)
    (extract : String → String → List String)
    (maxDepth : Int) (fuel : Nat) (startURL : String) :
    Crawl fetch extract maxDepth fuel startURL = .ok () ↔
      (urlParse startURL).isSome = true := by
  unfold Crawl
  cases h : urlParse startURL <;> simp

/-- Witness for C7: a crawl in which the only reachable page's fetch fails
(host unreachable) still returns `ok`, while a seed URL rejected by the
URL parser is the one way to get an error. -/
theorem c7_crawl_error_only_setup_witness :
    Crawl (fun u => { url := u, status := .error, errMsg := some "host unreachable" })
      (fun _ _ => []) 2 10 "http://a.com/x" = .ok () ∧
    Crawl (fun u => { url := u, status := .error, errMsg := some "host unreachable" })
      (fun _ _ => []) 2 10 "\x00" = .error "invalid seed URL" :=
  ⟨(c7_crawl_error_only_setup _ _ 2 10 "http://a.com/x").mpr (by decide), by rfl⟩

/-- C2: for a sequence of `AddURL` calls whose arguments normalize to the
same URL `n`, only the first (fresh, depth-admissible, with queue space)
call marks `n` visited, records its depth and enqueues it; any later call
normalizing to `n`, against any frontier state in which `n` is already
visited, is a no-op returning the state unchanged; and along any
subsequent sequence of frontier operations `n` stays visited, keeps the
first call's depth, and is pending at most once. -/
theorem c2_dedup_first_call_wins (uf : URLFrontier) (u₁ n : String) (d₁ : Int)
    (h₁ : urlParse u₁ = some n) (hfresh : n ∉ uf.visited)
    (hd : d₁ < uf.maxDepth) (hspace : uf.urls.length < chanCapacity)
    (hnotin : uf.urls.count n = 0) :
    n ∈ (uf.AddURL u₁ d₁).visited ∧
    lookupDepth (uf.AddURL u₁ d₁).depth n = d₁ ∧
    (uf.AddURL u₁ d₁).urls = uf.urls ++ [n] ∧
    (∀ (st : URLFrontier) (u₂ : String) (d₂ : Int),
      urlParse u₂ = some n → n ∈ st.visited → st.AddURL u₂ d₂ = st) ∧
    (∀ ops : List FrontierOp,
      n ∈ (runOps (uf.AddURL u₁ d₁) ops).visited ∧
      lookupDepth (runOps (uf.AddURL u₁ d₁) ops).depth n = d₁ ∧
      (runOps (uf.AddURL u₁ d₁) ops).urls.count n ≤ 1) := by
  have hkey := addURL_fresh_space uf u₁ n d₁ h₁ hfresh hd hspace
  have hvis : n ∈ (uf.AddURL u₁ d₁).visited := by
    rw [hkey]; exact List.mem_cons_self n uf.visited
  have hdep : lookupDepth (uf.AddURL u₁ d₁).depth n = d₁ := by
    rw [hkey]; simp [lookupDepth, List.find?]
  have hcnt : (uf.AddURL u₁ d₁).urls.count n = 1 := by
    rw [hkey]
    simp [List.count_append, hnotin]
  refine ⟨hvis, hdep, by rw [hkey], ?_, ?_⟩
  · intro st u₂ d₂ hp2 hv2
    exact addURL_noop_of_visited st u₂ n d₂ hp2 hv2
  · intro ops
    obtain ⟨i1, i2, i3⟩ := frontier_invariant_runOps n ops (uf.AddURL u₁ d₁) hvis
    exact ⟨i1, by rw [i2, hdep], by rw [hcnt] at i3; exact i3⟩

/-- Witness for C2, mirroring the spec's test: `AddURL(u, 0)` then
`AddURL(u, 5)` then a dequeue and another duplicate add — the recorded
depth stays 0 and the URL is pending at most once. -/
theorem c2_dedup_first_call_wins_witness :
    lookupDepth (runOps ((NewURLFrontier 2).AddURL "http://a.com/x" 0)
      [.add "http://a.com/x" 5, .get, .add "http://a.com/x" 1]).depth
      "http://a.com/x" = 0 ∧
    (runOps ((NewURLFrontier 2).AddURL "http://a.com/x" 0)
      [.add "http://a.com/x" 5, .get, .add "http://a.com/x" 1]).urls.count
      "http://a.com/x" ≤ 1 := by
  have h := c2_dedup_first_call_wins (NewURLFrontier 2) "http://a.com/x"
    "http://a.com/x" 0 rfl (by decide) (by decide) (by decide) (by decide)
  exact ⟨(h.2.2.2.2 _).2.1, (h.2.2.2.2 _).2.2⟩

/-- C9: when `AddURL` meets a full pending queue, the URL has already been
marked visited and its depth recorded before the enqueue attempt, so the
dropped URL is permanently excluded: the queue is unchanged by the call,
and along any subsequent sequence of frontier operations — including later
`AddURL` calls for the same normalized URL once the queue has space — it
never appears in the pending queue. -/
theorem c9_backpressure_permanent_exclusion (uf : URLFrontier) (u n : String) (d : Int)
    (h₁ : urlParse u = some n) (hfresh : n ∉ uf.visited)
    (hd : d < uf.maxDepth) (hfull : ¬ uf.urls.length < chanCapacity)
    (hnotin : uf.urls.count n = 0) :
    n ∈ (uf.AddURL u d).visited ∧
    lookupDepth (uf.AddURL u d).depth n = d ∧
    (uf.AddURL u d).urls = uf.urls ∧
    ∀ ops : List FrontierOp, (runOps (uf.AddURL u d) ops).urls.count n = 0 := by
  have hkey := addURL_fresh_full uf u n d h₁ hfresh hd hfull
  have hvis : n ∈ (uf.AddURL u d).visited := by
    rw [hkey]; exact List.mem_cons_self n uf.visited
  refine ⟨hvis, by rw [hkey]; simp [lookupDepth, List.find?], by rw [hkey], ?_⟩
  intro ops
  obtain ⟨-, -, i3⟩ := frontier_invariant_runOps n ops (uf.AddURL u d) hvis
  have : (uf.AddURL u d).urls.count n = 0 := by rw [hkey]; exact hnotin
  omega

/-- Witness for C9: a fresh URL offered to a queue at capacity is marked
visited but dropped, and later operations (a dequeue making space, then a
duplicate add) never get it into the pending queue. -/
theorem c9_backpressure_permanent_exclusion_witness :
    ¬ fullQueueFrontier.urls.length < chanCapacity ∧
    (fullQueueFrontier.AddURL "http://a.com/x" 0).urls = fullQueueFrontier.urls ∧
    (runOps (fullQueueFrontier.AddURL "http://a.com/x" 0)
      [.get, .add "http://a.com/x" 0]).urls.count "http://a.com/x" = 0 := by
  have h := c9_backpressure_permanent_exclusion fullQueueFrontier
    "http://a.com/x" "http://a.com/x" 0 rfl
    (by simp [fullQueueFrontier])
    (by simp [fullQueueFrontier])
    (by simp [fullQueueFrontier])
    (by simp [fullQueueFrontier, List.count_replicate])
  exact ⟨by simp [fullQueueFrontier], h.2.2.1, h.2.2.2 _⟩

/-! ### Rate limiter lemmas -/

/-- The configured delay is never changed by a pacing section. -/
theorem rlCritical_delay (f : RateLimiter) (hostname : String) (enter : Nat) :
    ((rlCritical f hostname enter).1).delay = f.delay := rfl

/-- A pacing section releases the lock no earlier than it acquired it. -/
theorem rlCritical_exit_ge_enter (f : RateLimiter) (hostname : String) (enter : Nat) :
    enter ≤ (rlCritical f hostname enter).2 := by
  show enter ≤ rlExit f hostname enter
  cases hl : f.lastRequest hostname with
  | none => simp [rlExit, hl]
  | some last =>
    simp only [rlExit, hl]
    split <;> omega

/-- Pacing: when a last-request time is recorded for the hostname, the
lock is released — and hence the next request to that hostname issued — no
earlier than that time plus the configured delay. -/
theorem rlCritical_spacing (f : RateLimiter) (hostname : String) (enter last : Nat)
    (hl : f.lastRequest hostname = some last) (hle : last ≤ enter) :
    last + f.delay ≤ (rlCritical f hostname enter).2 := by
  show last + f.delay ≤ rlExit f hostname enter
  simp only [rlExit, hl]
  split <;> omega

/-- After a pacing section for a hostname, the recorded last-request time
of that hostname is the release instant. -/
theorem rlCritical_lastRequest_self (f : RateLimiter) (hostname : String) (enter : Nat) :
    ((rlCritical f hostname enter).1).lastRequest hostname
      = some (rlCritical f hostname enter).2 := by
  simp [rlCritical, RateLimiter.lastRequest, List.find?]

/-- A pacing section for one hostname leaves the recorded time of every
other hostname unchanged. -/
theorem rlCritical_lastRequest_other (f : RateLimiter) (hostname h₂ : String)
    (enter : Nat) (hne : ¬ h₂ = hostname) :
    ((rlCritical f hostname enter).1).lastRequest h₂ = f.lastRequest h₂ := by
  unfold rlCritical RateLimiter.lastRequest
  dsimp only
  rw [List.find?_cons_of_neg]
  simp only [decide_eq_true_eq]
  exact fun h => hne h.symm

/-- A recorded timestamp in a bounded limiter is at most the bound. -/
theorem lastRequest_le_of_bounded (f : RateLimiter) (hostname : String) (t last : Nat)
    (hb : rlBounded f t) (hl : f.lastRequest hostname = some last) : last ≤ t := by
  unfold RateLimiter.lastRequest at hl
  cases hf : f.rateLimiter.find? (fun p => p.1 = hostname) with
  | none => rw [hf] at hl; cases hl
  | some p =>
    rw [hf] at hl
    injection hl with h
    rw [← h]
    exact hb p (List.mem_of_find?_eq_some hf)

/-- Boundedness weakens along the clock. -/
theorem rlBounded_mono (f : RateLimiter) (t t' : Nat) (hb : rlBounded f t)
    (h : t ≤ t') : rlBounded f t' :=
  fun p hp => le_trans (hb p hp) h

/-- A pacing section started at a bounded instant leaves the limiter
bounded by its release instant. -/
theorem rlCritical_bounded (f : RateLimiter) (hostname : String) (enter : Nat)
    (hb : rlBounded f enter) :
    rlBounded (rlCritical f hostname enter).1 (rlCritical f hostname enter).2 := by
  intro p hp
  have hx := rlCritical_exit_ge_enter f hostname enter
  have hmem : p = (hostname, rlExit f hostname enter) ∨ p ∈ f.rateLimiter :=
    List.mem_cons.mp hp
  rcases hmem with h | h
  · rw [h]
    exact le_refl _
  · exact le_trans (hb p h) hx

/-- Every fetch to a given hostname in a serialized run issues its request
at least one delay after the hostname's recorded last-request time. -/
theorem rlRun_spacing_from_last (hostname : String) :
    ∀ (reqs : List (String × Nat)) (f : RateLimiter) (free last : Nat),
      rlBounded f free → f.lastRequest hostname = some last →
      ∀ p ∈ (rlRun f free reqs).1, p.1 = hostname → last + f.delay ≤ p.2 := by
  intro reqs
  induction reqs with
  | nil =>
    intro f free last hb hl p hp
    simp [rlRun] at hp
  | cons req rest ih =>
    obtain ⟨h₀, arrival⟩ := req
    intro f free last hb hl p hp hhost
    have hfree_le : free ≤ max arrival free := le_max_right _ _
    have hb' : rlBounded f (max arrival free) := rlBounded_mono f free _ hb hfree_le
    have hlast_le : last ≤ max arrival free :=
      le_trans (lastRequest_le_of_bounded f hostname free last hb hl) hfree_le
    have hb2 := rlCritical_bounded f h₀ (max arrival free) hb'
    simp only [rlRun] at hp
    rcases List.mem_cons.mp hp with hhead | htail
    · rw [hhead] at hhost
      simp only at hhost
      subst hhost
      rw [hhead]
      exact rlCritical_spacing f h₀ (max arrival free) last hl hlast_le
    · by_cases he : h₀ = hostname
      · subst he
        have hself := rlCritical_lastRequest_self f h₀ (max arrival free)
        have hx := ih (rlCritical f h₀ (max arrival free)).1
          (rlCritical f h₀ (max arrival free)).2
          (rlCritical f h₀ (max arrival free)).2 hb2 hself p htail hhost
        have hsp := rlCritical_spacing f h₀ (max arrival free) last hl hlast_le
        rw [rlCritical_delay] at hx
        omega
      · have hother := rlCritical_lastRequest_other f h₀ hostname (max arrival free)
          (fun h => he h.symm)
        rw [hl] at hother
        have hx := ih (rlCritical f h₀ (max arrival free)).1
          (rlCritical f h₀ (max arrival free)).2 last hb2 hother p htail hhost
        rw [rlCritical_delay] at hx
        exact hx

/-- C4 (amended): in any mutex-serialized run of `Fetch` pacing sections,
any two calls whose URLs have the same hostname issue their HTTP requests
at least the configured delay apart (stated for every ordered pair, which
subsumes consecutive same-host calls). The claim's further assertion that
a fetch to one hostname is never delayed by another hostname's pacing is
refuted by `c4_cross_host_delay_counterexample`: the pacing sleep runs
while the single Fetcher mutex is held, so it postpones every later call
regardless of hostname. -/
theorem c4_rate_limit_spacing (f : RateLimiter) (free : Nat)
    (reqs : List (String × Nat)) (hb : rlBounded f free) :
    List.Pairwise (fun p q => p.1 = q.1 → p.2 + f.delay ≤ q.2)
      (rlRun f free reqs).1 := by
  induction reqs generalizing f free with
  | nil => simp [rlRun]
  | cons req rest ih =>
    obtain ⟨h₀, arrival⟩ := req
    have hbe : rlBounded f (max arrival free) :=
      rlBounded_mono f free _ hb (le_max_right _ _)
    have hb2 := rlCritical_bounded f h₀ (max arrival free) hbe
    simp only [rlRun]
    constructor
    · intro q hq hhost
      have hq1 : q.1 = h₀ := hhost.symm
      have hself := rlCritical_lastRequest_self f h₀ (max arrival free)
      have hx := rlRun_spacing_from_last h₀ rest
        (rlCritical f h₀ (max arrival free)).1
        (rlCritical f h₀ (max arrival free)).2
        (rlCritical f h₀ (max arrival free)).2 hb2 hself q hq hq1
      rw [rlCritical_delay] at hx
      exact hx
    · exact ih (rlCritical f h₀ (max arrival free)).1
        (rlCritical f h₀ (max arrival free)).2 hb2

/-- Witness for C4 (amended): an empty limiter is bounded by instant 0,
and a run with two calls to the same host and one to another is pairwise
spaced. -/
theorem c4_rate_limit_spacing_witness :
    rlBounded { rateLimiter := [], delay := 200 } 0 ∧
    List.Pairwise (fun p q => p.1 = q.1 → p.2 + 200 ≤ q.2)
      (rlRun { rateLimiter := [], delay := 200 } 0
        [("a.com", 0), ("a.com", 0), ("b.com", 500)]).1 := by
  have hb : rlBounded { rateLimiter := [], delay := 200 } 0 := by
    intro p hp
    cases hp
  exact ⟨hb, c4_rate_limit_spacing { rateLimiter := [], delay := 200 } 0
    [("a.com", 0), ("a.com", 0), ("b.com", 500)] hb⟩

/-- C4 (counterexample to the cross-host isolation conjunct): with
delay 10 and a last request to `a.com` recorded at instant 0, a fetch to
`a.com` arriving at instant 1 sleeps under the Fetcher mutex until
instant 10; a fetch to `b.com` arriving at instant 2 — with no `b.com`
history at all — cannot enter the pacing section until the mutex is
released and so issues its request only at instant 10, whereas the same
`b.com` fetch alone issues at instant 2. The `b.com` call is therefore
delayed by rate-limit pacing applied to `a.com`, contradicting the
claim. -/
theorem c4_cross_host_delay_counterexample :
    (rlRun { rateLimiter := [("a.com", 0)], delay := 10 } 0
      [("a.com", 1), ("b.com", 2)]).1 = [("a.com", 10), ("b.com", 10)] ∧
    (rlRun { rateLimiter := [("a.com", 0)], delay := 10 } 0
      [("b.com", 2)]).1 = [("b.com", 2)] := by decide

end CrawlSpec
